import Mathlib

/-!
# Verification of the BTC DVOL fetch-align-summarize pipeline

Shallow embedding of `fetch_dvol.py`: the chunked-fetch deduplication
(`fetch_dvol_data`), the date aligner (`process_data`) and the summary
builder (the body of `main`).  Numeric values are modelled as exact
rationals; timestamps as integers (milliseconds for the volatility
source, seconds for the price source).  Python's `datetime.utcfromtimestamp`
is partial (it raises outside the year range 1..9999), which the embedding
models with `Option`.
-/

/-- Round half to even to an integer, as Python's builtin `round` does
on exact values. -/
def roundHalfEven (q : ℚ) : ℤ :=
  let f := ⌊q⌋
  let r := q - (f : ℚ)
  if r < 1/2 then f
  else if 1/2 < r then f + 1
  else if f % 2 = 0 then f else f + 1

/-- Python's `round(x, 2)`: round to two decimal places, half to even. -/
def pyRound2 (q : ℚ) : ℚ := (roundHalfEven (q * 100) : ℚ) / 100

/-! ## UTC calendar-day keys (`datetime.utcfromtimestamp(..).strftime('%Y-%m-%d')`) -/

/-- Convert a count of days since 1970-01-01 to a proleptic Gregorian
`(year, month, day)` triple (Howard Hinnant's `civil_from_days`). -/
def civilFromDays (z0 : ℤ) : ℤ × ℤ × ℤ :=
  let z := z0 + 719468
  let era := Int.fdiv z 146097
  let doe := z - era * 146097
  let yoe := (doe - doe / 1460 + doe / 36524 - doe / 146096) / 365
  let y := yoe + era * 400
  let doy := doe - (365 * yoe + yoe / 4 - yoe / 100)
  let mp := (5 * doy + 2) / 153
  let d := doy - (153 * mp + 2) / 5 + 1
  let m := mp + (if mp < 10 then 3 else -9)
  (y + (if m ≤ 2 then 1 else 0), m, d)

/-- Zero-pad a (nonnegative) integer to two digits. -/
def pad2 (n : ℤ) : String :=
  if n < 10 then "0" ++ toString n else toString n

/-- Zero-pad a (nonnegative) integer to four digits. -/
def pad4 (n : ℤ) : String :=
  if n < 10 then "000" ++ toString n
  else if n < 100 then "00" ++ toString n
  else if n < 1000 then "0" ++ toString n
  else toString n

/-- Format a `(year, month, day)` triple as a `YYYY-MM-DD` string. -/
def fmtDate (c : ℤ × ℤ × ℤ) : String :=
  pad4 c.1 ++ "-" ++ pad2 c.2.1 ++ "-" ++ pad2 c.2.2

/-- First day (since epoch) representable by Python `datetime`: 0001-01-01. -/
def minDay : ℤ := -719162

/-- Last day (since epoch) representable by Python `datetime`: 9999-12-31. -/
def maxDay : ℤ := 2932896

/-- The `DateKey` of a day count since the epoch; `none` models the
`ValueError`/`OverflowError` that `datetime.utcfromtimestamp` raises for
timestamps outside year 1..9999. -/
def dateKeyOfDay (z : ℤ) : Option String :=
  if minDay ≤ z ∧ z ≤ maxDay then some (fmtDate (civilFromDays z)) else none

/-- DateKey of an epoch-millisecond timestamp (volatility source):
`datetime.utcfromtimestamp(timestamp / 1000).strftime('%Y-%m-%d')`. -/
def dateKeyMs (ts : ℤ) : Option String := dateKeyOfDay (Int.fdiv ts 86400000)

/-- DateKey of an epoch-second timestamp (price source):
`datetime.utcfromtimestamp(item['x']).strftime('%Y-%m-%d')`. -/
def dateKeySec (ts : ℤ) : Option String := dateKeyOfDay (Int.fdiv ts 86400)

/-! ## Raw points -/

/-- One row of the volatility source: `[timestamp, open, high, low, close]`
(timestamp in epoch milliseconds; the close at index 4 is the value used). -/
structure DvolRow where
  ts : ℤ
  o : ℚ
  h : ℚ
  l : ℚ
  c : ℚ
deriving DecidableEq, Repr

/-- One point of the price source: `{x: epoch_seconds, y: value}`. -/
structure PricePoint where
  x : ℤ
  y : ℚ
deriving DecidableEq, Repr

/-! ## Python dict model

An insertion-ordered association list with unique keys: assigning to an
existing key updates it in place, assigning to a fresh key appends. -/

/-- A Python `dict` keyed by DateKey strings. -/
abbrev Dict : Type := List (String × ℚ)

/-- `m[k] = v`: update in place (keeping the key position) if the key is
present, else append at the end -- CPython dict assignment semantics. -/
def dictInsert (m : Dict) (k : String) (v : ℚ) : Dict :=
  match m with
  | [] => [(k, v)]
  | p :: rest => if p.1 = k then (k, v) :: rest else p :: dictInsert rest k v

/-- Lookup, as an `Option`. -/
def dictGet? (m : Dict) (k : String) : Option ℚ :=
  (m.find? (fun p => p.1 = k)).map Prod.snd

/-- `m.keys()`, in insertion order. -/
def dictKeys (m : Dict) : List String := m.map Prod.fst

/-! ## Series Fetcher (`fetch_dvol_data`) -/

/-- The deduplication loop of `fetch_dvol_data`: keep an item only when its
timestamp was not seen before (first-seen wins).  `seen` is the set of
timestamps already kept. -/
def dedupF (seen : List ℤ) : List DvolRow → List DvolRow
  | [] => []
  | it :: rest =>
    if it.ts ∈ seen then dedupF seen rest
    else it :: dedupF (it.ts :: seen) rest

/-- `unique.sort(key=lambda x: x[0])`: stable sort ascending by timestamp. -/
def sortByTs (l : List DvolRow) : List DvolRow :=
  List.insertionSort (fun a b => a.ts ≤ b.ts) l

/-- `all_data`: concatenation of the successful chunks' rows, in fetch
order; a `none` chunk models a failed request (exception caught and
logged), `some []` an empty or data-less response. -/
def combineChunks (chunks : List (Option (List DvolRow))) : List DvolRow :=
  chunks.foldl (fun acc ch => match ch with
    | some rows => acc ++ rows
    | none => acc) []

/-- `fetch_dvol_data`, given the per-chunk HTTP outcomes: deduplicate the
combined rows by timestamp, sort by timestamp, and return `None` when the
result is empty. -/
def fetch_dvol_data (chunks : List (Option (List DvolRow))) :
    Option (List DvolRow) :=
  let unique := sortByTs (dedupF [] (combineChunks chunks))
  if unique = [] then none else some unique

/-! ## Date Aligner (`process_data`) -/

/-- One `DateKey -> value` building loop of `process_data`: insert each
item's key/value pair in iteration order; a key out of `datetime` range
raises, i.e. yields `none`. -/
def buildDictAux {α : Type} (key : α → Option String) (val : α → ℚ)
    (m : Dict) : List α → Option Dict
  | [] => some m
  | it :: rest =>
    match key it with
    | none => none
    | some k => buildDictAux key val (dictInsert m k (val it)) rest

/-- `dvol_by_date`: DateKey (from the millisecond timestamp) to close. -/
def dvol_by_date (dvol_data : List DvolRow) : Option Dict :=
  buildDictAux (fun it => dateKeyMs it.ts) (fun it => it.c) [] dvol_data

/-- `price_by_date`: DateKey (from the second timestamp `x`) to `y`. -/
def price_by_date (price_data : List PricePoint) : Option Dict :=
  buildDictAux (fun it => dateKeySec it.x) (fun it => it.y) [] price_data

/-- `sorted(...)` on DateKey strings: ascending lexicographic order. -/
def sortedLex (l : List String) : List String :=
  List.insertionSort (fun a b => a ≤ b) l

/-- `common_dates = sorted(set(dvol_by_date.keys()) & set(price_by_date.keys()))`. -/
def commonDates (dm pm : Dict) : List String :=
  sortedLex ((dictKeys dm).filter (fun d => (dictKeys pm).contains d))

/-- `process_data`: align the two series by DateKey.  Returns the triple
`(dates, btc_prices, dvol_values)`; `none` models an uncaught
`datetime.utcfromtimestamp` exception. -/
def process_data (dvol_data : List DvolRow) (price_data : List PricePoint) :
    Option (List String × List ℚ × List ℚ) :=
  match dvol_by_date dvol_data with
  | none => none
  | some dm =>
    match price_by_date price_data with
    | none => none
    | some pm =>
      let common := commonDates dm pm
      if common = [] then some ([], [], [])
      else
        some (common.foldl (fun acc d =>
          (acc.1 ++ [d],
           acc.2.1 ++ [pyRound2 ((dictGet? pm d).getD 0)],
           acc.2.2 ++ [pyRound2 ((dictGet? dm d).getD 0)])) ([], [], []))

/-! ## Summary Builder (body of `main`) -/

/-- The persisted output record (`last_updated`, a wall-clock capture
time, is outside the data model). -/
structure SummaryRecord where
  dates : List String
  btc_prices : List ℚ
  dvol : List ℚ
  current_price : ℚ
  current_dvol : ℚ
  expected_daily_move : ℚ
  status : String
  status_en : String
deriving DecidableEq, Repr

/-- The three-way threshold classification of `main` (checked in source
order: high first, then low, else normal). -/
def classify (current_dvol : ℚ) : String × String :=
  if current_dvol ≥ 60 then ("과변동성", "High Volatility")
  else if current_dvol ≤ 40 then ("저변동성", "Low Volatility")
  else ("보통", "Normal")

/-- Assemble the output record from a (non-empty) aligned series, as
`main` does after `process_data`.  `[-1]` indexing is modelled by
`getLast?.getD 0`; `main` only reaches this point when `dates` is
non-empty. -/
def build_output (dates : List String) (btc_prices dvol_values : List ℚ) :
    SummaryRecord :=
  let current_price := btc_prices.getLast?.getD 0
  let current_dvol := dvol_values.getLast?.getD 0
  let expected_daily_move := current_dvol / (191/10)
  let st := classify current_dvol
  { dates := dates
    btc_prices := btc_prices
    dvol := dvol_values
    current_price := current_price
    current_dvol := current_dvol
    expected_daily_move := pyRound2 expected_daily_move
    status := st.1
    status_en := st.2 }

/-- The data path of `main`, from the two fetch results to the persisted
record: `none` means the run aborts (or crashes) and writes nothing; a
falsy fetch result (`None` or an empty list) aborts, an empty aligned
date list aborts, otherwise the summary is built and written. -/
def main_run (dvolRes : Option (List DvolRow))
    (priceRes : Option (List PricePoint)) : Option SummaryRecord :=
  match dvolRes, priceRes with
  | some dvol_data, some price_data =>
    if dvol_data = [] ∨ price_data = [] then none
    else
      match process_data dvol_data price_data with
      | none => none
      | some (dates, btc_prices, dvol_values) =>
        if dates = [] then none
        else some (build_output dates btc_prices dvol_values)
  | _, _ => none

/-! ## Lemmas about the dict model -/

theorem dictGet?_insert (m : Dict) (k : String) (v : ℚ) (k' : String) :
    dictGet? (dictInsert m k v) k' = if k' = k then some v else dictGet? m k' := by
  induction m with
  | nil =>
    by_cases hk : k' = k
    · subst hk; simp [dictInsert, dictGet?]
    · have h1 : decide (k = k') = false := decide_eq_false fun h => hk h.symm
      simp [dictInsert, dictGet?, List.find?_cons, h1, hk]
  | cons p rest ih =>
    by_cases hp : p.1 = k
    · by_cases hk : k' = k
      · subst hk; simp [dictInsert, dictGet?, hp]
      · have h1 : decide (k = k') = false := decide_eq_false fun h => hk h.symm
        have h2 : decide (p.1 = k') = false :=
          decide_eq_false fun h => hk (hp.symm.trans h).symm
        simp [dictInsert, dictGet?, List.find?_cons, hp, h1, h2, hk]
    · by_cases hpk : p.1 = k'
      · have hk : ¬ k' = k := fun h => hp (h ▸ hpk)
        simp [dictInsert, dictGet?, List.find?_cons, hp, hpk, hk]
      · have h2 : decide (p.1 = k') = false := decide_eq_false hpk
        simp only [dictInsert, if_neg hp, dictGet?, List.find?_cons, h2]
        simp only [dictGet?] at ih
        exact ih

theorem dictKeys_insert (m : Dict) (k : String) (v : ℚ) :
    dictKeys (dictInsert m k v) =
      if k ∈ dictKeys m then dictKeys m else dictKeys m ++ [k] := by
  induction m with
  | nil => simp [dictInsert, dictKeys]
  | cons p rest ih =>
    by_cases hp : p.1 = k
    · simp [dictInsert, dictKeys, hp]
    · by_cases hk : k ∈ dictKeys rest
      · have hk2 : k ∈ dictKeys (p :: rest) := by
          simp only [dictKeys, List.map_cons, List.mem_cons]
          exact Or.inr hk
        rw [if_pos hk2]
        simp only [dictInsert, if_neg hp, dictKeys, List.map_cons]
        rw [if_pos hk] at ih
        simp only [dictKeys] at ih
        rw [ih]
      · have hk2 : k ∉ dictKeys (p :: rest) := by
          simp only [dictKeys, List.map_cons, List.mem_cons]
          rintro (h | h)
          · exact hp h.symm
          · exact hk h
        rw [if_neg hk2]
        simp only [dictInsert, if_neg hp, dictKeys, List.map_cons]
        rw [if_neg hk] at ih
        simp only [dictKeys] at ih
        rw [ih]
        rfl

theorem mem_dictKeys_insert (m : Dict) (k : String) (v : ℚ) (k' : String) :
    k' ∈ dictKeys (dictInsert m k v) ↔ k' ∈ dictKeys m ∨ k' = k := by
  rw [dictKeys_insert]
  by_cases h : k ∈ dictKeys m
  · rw [if_pos h]
    constructor
    · exact Or.inl
    · rintro (hm | rfl)
      · exact hm
      · exact h
  · rw [if_neg h]; simp

theorem nodup_dictKeys_insert (m : Dict) (k : String) (v : ℚ)
    (h : (dictKeys m).Nodup) : (dictKeys (dictInsert m k v)).Nodup := by
  rw [dictKeys_insert]
  by_cases hm : k ∈ dictKeys m
  · rwa [if_pos hm]
  · rw [if_neg hm]
    simp [List.nodup_append, h, hm]

/-! ## Lemmas about the per-source DateKey mappings -/

theorem buildDictAux_keys_mem {α : Type} (key : α → Option String) (val : α → ℚ) :
    ∀ (l : List α) (m dm : Dict), buildDictAux key val m l = some dm →
      ∀ k', k' ∈ dictKeys dm ↔ k' ∈ dictKeys m ∨ ∃ it ∈ l, key it = some k' := by
  intro l
  induction l with
  | nil =>
    intro m dm h k'
    simp only [buildDictAux, Option.some.injEq] at h
    subst h
    simp
  | cons it rest ih =>
    intro m dm h k'
    simp only [buildDictAux] at h
    cases hit : key it with
    | none => rw [hit] at h; exact absurd h (by simp)
    | some k =>
      rw [hit] at h
      rw [ih _ _ h k', mem_dictKeys_insert]
      simp only [List.mem_cons]
      constructor
      · rintro ((hm | rfl) | ⟨it2, hit2, hk⟩)
        · exact Or.inl hm
        · exact Or.inr ⟨it, Or.inl rfl, hit⟩
        · exact Or.inr ⟨it2, Or.inr hit2, hk⟩
      · rintro (hm | ⟨it2, (rfl | hit2), hk⟩)
        · exact Or.inl (Or.inl hm)
        · rw [hit] at hk
          exact Or.inl (Or.inr (Option.some.inj hk).symm)
        · exact Or.inr ⟨it2, hit2, hk⟩

theorem buildDictAux_keys_nodup {α : Type} (key : α → Option String) (val : α → ℚ) :
    ∀ (l : List α) (m dm : Dict), buildDictAux key val m l = some dm →
      (dictKeys m).Nodup → (dictKeys dm).Nodup := by
  intro l
  induction l with
  | nil =>
    intro m dm h hn
    simp only [buildDictAux, Option.some.injEq] at h
    subst h
    exact hn
  | cons it rest ih =>
    intro m dm h hn
    simp only [buildDictAux] at h
    cases hit : key it with
    | none => rw [hit] at h; exact absurd h (by simp)
    | some k =>
      rw [hit] at h
      exact ih _ _ h (nodup_dictKeys_insert m k (val it) hn)

theorem buildDictAux_get_none {α : Type} (key : α → Option String) (val : α → ℚ) :
    ∀ (l : List α) (m dm : Dict) (k' : String), buildDictAux key val m l = some dm →
      l.reverse.find? (fun it => key it = some k') = none →
      dictGet? dm k' = dictGet? m k' := by
  intro l
  induction l with
  | nil =>
    intro m dm k' h _
    simp only [buildDictAux, Option.some.injEq] at h
    subst h
    rfl
  | cons it rest ih =>
    intro m dm k' h hf
    simp only [buildDictAux] at h
    rw [List.reverse_cons, List.find?_append, Option.or_eq_none] at hf
    obtain ⟨hf1, hf2⟩ := hf
    have hne : ¬ key it = some k' := by
      intro hc
      simp [List.find?_cons, hc] at hf2
    cases hit : key it with
    | none => rw [hit] at h; exact absurd h (by simp)
    | some k =>
      rw [hit] at h
      have hkk : ¬ k' = k := fun hc => hne (by rw [hit, hc])
      rw [ih _ _ _ h hf1, dictGet?_insert, if_neg hkk]

theorem buildDictAux_get_some {α : Type} (key : α → Option String) (val : α → ℚ) :
    ∀ (l : List α) (m dm : Dict) (k' : String) (r : α),
      buildDictAux key val m l = some dm →
      l.reverse.find? (fun it => key it = some k') = some r →
      dictGet? dm k' = some (val r) := by
  intro l
  induction l with
  | nil =>
    intro m dm k' r _ hf
    simp at hf
  | cons it rest ih =>
    intro m dm k' r h hf
    simp only [buildDictAux] at h
    rw [List.reverse_cons, List.find?_append] at hf
    cases hit : key it with
    | none => rw [hit] at h; exact absurd h (by simp)
    | some k =>
      rw [hit] at h
      cases hf1 : rest.reverse.find? (fun it => key it = some k') with
      | some r1 =>
        rw [hf1, Option.or_some] at hf
        exact (Option.some.inj hf) ▸ ih _ _ _ _ h hf1
      | none =>
        rw [hf1, Option.none_or] at hf
        by_cases hk : key it = some k'
        · have hr : r = it := by
            simp [List.find?_cons, hk] at hf
            exact hf.symm
          subst hr
          have hkk : k' = k := Option.some.inj ((hit ▸ hk : some k = some k')).symm
          rw [buildDictAux_get_none key val rest _ _ _ h hf1, dictGet?_insert,
            if_pos hkk]
        · simp [List.find?_cons, hk] at hf

theorem buildDictAux_total {α : Type} (key : α → Option String) (val : α → ℚ) :
    ∀ (l : List α) (m : Dict), (∀ it ∈ l, (key it).isSome) →
      ∃ dm, buildDictAux key val m l = some dm := by
  intro l
  induction l with
  | nil => intro m _; exact ⟨m, rfl⟩
  | cons it rest ih =>
    intro m hall
    cases hit : key it with
    | none =>
      have := hall it (List.mem_cons_self it rest)
      rw [hit] at this
      simp at this
    | some k =>
      obtain ⟨dm, hdm⟩ := ih (dictInsert m k (val it))
        (fun x hx => hall x (List.mem_cons_of_mem it hx))
      exact ⟨dm, by simp only [buildDictAux]; rw [hit]; exact hdm⟩

/-! ## Lemmas about `process_data` -/

theorem commonDates_sorted (dm pm : Dict) :
    List.Pairwise (fun a b : String => a ≤ b) (commonDates dm pm) :=
  List.sorted_insertionSort _ _

theorem commonDates_mem (dm pm : Dict) (d : String) :
    d ∈ commonDates dm pm ↔ d ∈ dictKeys dm ∧ d ∈ dictKeys pm := by
  unfold commonDates sortedLex
  rw [(List.perm_insertionSort _ _).mem_iff]
  simp [List.mem_filter]

theorem commonDates_nodup (dm pm : Dict) (h : (dictKeys dm).Nodup) :
    (commonDates dm pm).Nodup :=
  (List.perm_insertionSort _ _).symm.nodup (h.filter _)

theorem commonDates_strict (dm pm : Dict) (h : (dictKeys dm).Nodup) :
    List.Pairwise (fun a b : String => a < b) (commonDates dm pm) :=
  List.Sorted.lt_of_le (commonDates_sorted dm pm) (commonDates_nodup dm pm h)

theorem foldl_triple_eq (g1 g2 : String → ℚ) (common : List String) :
    ∀ acc : List String × List ℚ × List ℚ,
      common.foldl (fun acc d => (acc.1 ++ [d], acc.2.1 ++ [g1 d], acc.2.2 ++ [g2 d])) acc
        = (acc.1 ++ common, acc.2.1 ++ common.map g1, acc.2.2 ++ common.map g2) := by
  induction common with
  | nil => intro acc; simp
  | cons d rest ih =>
    intro acc
    rw [List.foldl_cons, ih]
    simp

theorem process_data_eq (dvol_data : List DvolRow) (price_data : List PricePoint)
    (dm pm : Dict) (h1 : dvol_by_date dvol_data = some dm)
    (h2 : price_by_date price_data = some pm) :
    process_data dvol_data price_data =
      some (commonDates dm pm,
        (commonDates dm pm).map (fun d => pyRound2 ((dictGet? pm d).getD 0)),
        (commonDates dm pm).map (fun d => pyRound2 ((dictGet? dm d).getD 0))) := by
  unfold process_data
  rw [h1, h2]
  dsimp only
  by_cases hc : commonDates dm pm = []
  · rw [if_pos hc, hc]
    simp
  · rw [if_neg hc, foldl_triple_eq]
    simp

theorem process_data_some_inv (dvol_data : List DvolRow) (price_data : List PricePoint)
    (r : List String × List ℚ × List ℚ)
    (h : process_data dvol_data price_data = some r) :
    ∃ dm pm, dvol_by_date dvol_data = some dm ∧ price_by_date price_data = some pm := by
  unfold process_data at h
  cases hd : dvol_by_date dvol_data with
  | none => rw [hd] at h; simp at h
  | some dm =>
    rw [hd] at h
    cases hp : price_by_date price_data with
    | none => rw [hp] at h; simp at h
    | some pm => exact ⟨dm, pm, rfl, rfl⟩

/-! ## Lemmas about the fetcher -/

instance : IsTotal DvolRow (fun a b => a.ts ≤ b.ts) :=
  ⟨fun a b => Int.le_total a.ts b.ts⟩

instance : IsTrans DvolRow (fun a b => a.ts ≤ b.ts) :=
  ⟨fun _ _ _ h1 h2 => le_trans h1 h2⟩

theorem dedupF_not_seen (l : List DvolRow) :
    ∀ (seen : List ℤ), ∀ r ∈ dedupF seen l, r.ts ∉ seen := by
  induction l with
  | nil => intro seen r hr; simp [dedupF] at hr
  | cons it rest ih =>
    intro seen r hr
    by_cases h : it.ts ∈ seen
    · rw [dedupF, if_pos h] at hr
      exact ih seen r hr
    · rw [dedupF, if_neg h] at hr
      rcases List.mem_cons.mp hr with rfl | hr2
      · exact h
      · have := ih (it.ts :: seen) r hr2
        exact fun hc => this (List.mem_cons_of_mem _ hc)

theorem dedupF_pairwise_ne (l : List DvolRow) :
    ∀ (seen : List ℤ), (dedupF seen l).Pairwise (fun a b => a.ts ≠ b.ts) := by
  induction l with
  | nil => intro seen; simp [dedupF]
  | cons it rest ih =>
    intro seen
    by_cases h : it.ts ∈ seen
    · rw [dedupF, if_pos h]
      exact ih seen
    · rw [dedupF, if_neg h]
      refine List.pairwise_cons.mpr ⟨?_, ih _⟩
      intro b hb
      have := dedupF_not_seen rest (it.ts :: seen) b hb
      exact fun he => this (he ▸ List.mem_cons_self _ _)

theorem dedupF_first_seen (l : List DvolRow) :
    ∀ (seen : List ℤ), ∀ r ∈ dedupF seen l,
      r.ts ∉ seen ∧ l.find? (fun x => x.ts = r.ts) = some r := by
  induction l with
  | nil => intro seen r hr; simp [dedupF] at hr
  | cons it rest ih =>
    intro seen r hr
    by_cases h : it.ts ∈ seen
    · rw [dedupF, if_pos h] at hr
      obtain ⟨hn, hf⟩ := ih seen r hr
      refine ⟨hn, ?_⟩
      have hne : ¬ it.ts = r.ts := fun he => hn (he ▸ h)
      rw [List.find?_cons_of_neg _ (by simpa using hne), hf]
    · rw [dedupF, if_neg h] at hr
      rcases List.mem_cons.mp hr with rfl | hr2
      · exact ⟨h, by rw [List.find?_cons_of_pos _ (by simp)]⟩
      · obtain ⟨hn, hf⟩ := ih (it.ts :: seen) r hr2
        have hne : ¬ it.ts = r.ts := fun he => hn (he ▸ List.mem_cons_self _ _)
        refine ⟨fun hc => hn (List.mem_cons_of_mem _ hc), ?_⟩
        rw [List.find?_cons_of_neg _ (by simpa using hne), hf]

theorem dedupF_cover (l : List DvolRow) :
    ∀ (seen : List ℤ), ∀ x ∈ l, x.ts ∈ seen ∨ ∃ r ∈ dedupF seen l, r.ts = x.ts := by
  induction l with
  | nil => intro seen x hx; simp at hx
  | cons it rest ih =>
    intro seen x hx
    by_cases h : it.ts ∈ seen
    · rw [dedupF, if_pos h]
      rcases List.mem_cons.mp hx with rfl | hx2
      · exact Or.inl h
      · exact ih seen x hx2
    · rw [dedupF, if_neg h]
      rcases List.mem_cons.mp hx with rfl | hx2
      · exact Or.inr ⟨x, List.mem_cons_self _ _, rfl⟩
      · rcases ih (it.ts :: seen) x hx2 with hs | ⟨r, hr, he⟩
        · rcases List.mem_cons.mp hs with he | hs2
          · exact Or.inr ⟨it, List.mem_cons_self _ _, he.symm⟩
          · exact Or.inl hs2
        · exact Or.inr ⟨r, List.mem_cons_of_mem _ hr, he⟩

theorem dedupF_eq_nil (l : List DvolRow) : dedupF [] l = [] ↔ l = [] := by
  cases l with
  | nil => simp [dedupF]
  | cons it rest =>
    constructor
    · intro h
      rw [dedupF] at h
      simp at h
    · intro h; cases h

theorem combineChunks_cons (ch : Option (List DvolRow))
    (chunks : List (Option (List DvolRow))) :
    combineChunks (ch :: chunks) = ch.getD [] ++ combineChunks chunks := by
  have haux : ∀ (cs : List (Option (List DvolRow))) (acc : List DvolRow),
      cs.foldl (fun acc ch => match ch with
        | some rows => acc ++ rows
        | none => acc) acc = acc ++ combineChunks cs := by
    intro cs
    induction cs with
    | nil => intro acc; simp [combineChunks]
    | cons c cs2 ih =>
      intro acc
      rw [List.foldl_cons]
      rw [show (combineChunks (c :: cs2) : List DvolRow)
          = List.foldl _ (match c with
            | some rows => ([] : List DvolRow) ++ rows
            | none => ([] : List DvolRow)) cs2 from rfl]
      cases c with
      | none => simp only; rw [ih acc, ih []]; simp
      | some rows => simp only; rw [ih (acc ++ rows), ih ([] ++ rows)]; simp
  cases ch with
  | none => simp only [combineChunks, List.foldl_cons, Option.getD]; rw [haux]; rfl
  | some rows => simp only [combineChunks, List.foldl_cons, Option.getD]; rw [haux]; rfl

theorem mem_combineChunks (chunks : List (Option (List DvolRow))) (x : DvolRow) :
    x ∈ combineChunks chunks ↔ ∃ rows, some rows ∈ chunks ∧ x ∈ rows := by
  induction chunks with
  | nil => simp [combineChunks]
  | cons ch chunks ih =>
    rw [combineChunks_cons, List.mem_append, ih]
    cases ch with
    | none => simp
    | some rows =>
      simp only [Option.getD_some, List.mem_cons]
      constructor
      · rintro (hx | ⟨rows2, h2, hx⟩)
        · exact ⟨rows, Or.inl rfl, hx⟩
        · exact ⟨rows2, Or.inr h2, hx⟩
      · rintro ⟨rows2, (he | h2), hx⟩
        · exact Or.inl ((Option.some.inj he) ▸ hx)
        · exact Or.inr ⟨rows2, h2, hx⟩

/-! ## Claim theorems -/

/-- Claim C1: whenever `process_data` returns, the dates sequence it
returns is strictly ascending in the lexicographic string order, and a
DateKey is in it exactly when it is derived from some timestamp of each
source — i.e. it is the sorted intersection of the two per-source
DateKey sets. -/
theorem process_data_dates_sorted_inter (dvol_data : List DvolRow)
    (price_data : List PricePoint) (dates : List String) (bp dv : List ℚ)
    (h : process_data dvol_data price_data = some (dates, bp, dv)) :
    List.Pairwise (fun a b : String => a < b) dates ∧
    ∀ d, d ∈ dates ↔
      ((∃ it ∈ dvol_data, dateKeyMs it.ts = some d) ∧
       (∃ it ∈ price_data, dateKeySec it.x = some d)) := by
  obtain ⟨dm, pm, h1, h2⟩ := process_data_some_inv _ _ _ h
  have he := process_data_eq _ _ _ _ h1 h2
  rw [h] at he
  have h3 := Option.some.inj he
  have hd : dates = commonDates dm pm := congrArg (fun t => t.1) h3
  unfold dvol_by_date at h1
  unfold price_by_date at h2
  have hnd : (dictKeys dm).Nodup :=
    buildDictAux_keys_nodup _ _ dvol_data [] dm h1 (by simp [dictKeys])
  have hmem1 := buildDictAux_keys_mem (fun it => dateKeyMs it.ts)
    (fun it => it.c) dvol_data [] dm h1
  have hmem2 := buildDictAux_keys_mem (fun it => dateKeySec it.x)
    (fun it => it.y) price_data [] pm h2
  constructor
  · exact hd ▸ commonDates_strict dm pm hnd
  · intro d
    rw [hd, commonDates_mem, hmem1 d, hmem2 d]
    simp [dictKeys]

/-- Claim C5: the three sequences returned by `process_data` have equal
lengths, and the parallel arrays of the record built from them keep those
equal lengths. -/
theorem process_data_lengths (dvol_data : List DvolRow)
    (price_data : List PricePoint) (dates : List String) (bp dv : List ℚ)
    (h : process_data dvol_data price_data = some (dates, bp, dv)) :
    dates.length = bp.length ∧ bp.length = dv.length ∧
    (build_output dates bp dv).dates.length
        = (build_output dates bp dv).btc_prices.length ∧
    (build_output dates bp dv).btc_prices.length
        = (build_output dates bp dv).dvol.length := by
  obtain ⟨dm, pm, h1, h2⟩ := process_data_some_inv _ _ _ h
  have he := process_data_eq _ _ _ _ h1 h2
  rw [h] at he
  have h3 := Option.some.inj he
  have hd : dates = commonDates dm pm := congrArg (fun t => t.1) h3
  have hb : bp = (commonDates dm pm).map (fun d => pyRound2 ((dictGet? pm d).getD 0)) :=
    congrArg (fun t => t.2.1) h3
  have hv : dv = (commonDates dm pm).map (fun d => pyRound2 ((dictGet? dm d).getD 0)) :=
    congrArg (fun t => t.2.2) h3
  refine ⟨?_, ?_, ?_, ?_⟩ <;> simp [build_output, hd, hb, hv]

/-- Claim C8: in each per-source DateKey-to-value mapping, the value
stored for a DateKey is the one of the last point (in iteration order)
whose timestamp falls on that UTC day — last-write-wins. -/
theorem byDate_last_write_wins (dvol_data : List DvolRow)
    (price_data : List PricePoint) (dm pm : Dict)
    (h1 : dvol_by_date dvol_data = some dm)
    (h2 : price_by_date price_data = some pm) (k : String) :
    dictGet? dm k =
      (dvol_data.reverse.find? (fun it => dateKeyMs it.ts = some k)).map
        (fun it => it.c) ∧
    dictGet? pm k =
      (price_data.reverse.find? (fun it => dateKeySec it.x = some k)).map
        (fun it => it.y) := by
  unfold dvol_by_date at h1
  unfold price_by_date at h2
  constructor
  · cases hf : dvol_data.reverse.find? (fun it => dateKeyMs it.ts = some k) with
    | none => rw [buildDictAux_get_none _ _ dvol_data [] dm k h1 hf]; rfl
    | some r => rw [buildDictAux_get_some _ _ dvol_data [] dm k r h1 hf]; rfl
  · cases hf : price_data.reverse.find? (fun it => dateKeySec it.x = some k) with
    | none => rw [buildDictAux_get_none _ _ price_data [] pm k h2 hf]; rfl
    | some r => rw [buildDictAux_get_some _ _ price_data [] pm k r h2 hf]; rfl

/-- Claim C2: for any combined chunk data (any fetch order), the
deduplicated and sorted fetcher output has strictly ascending (hence
pairwise distinct) timestamps, each output point is the first-seen input
point carrying its timestamp, and every input timestamp is represented. -/
theorem fetch_dedup_spec (all_data : List DvolRow) :
    (sortByTs (dedupF [] all_data)).Pairwise (fun a b => a.ts < b.ts) ∧
    (∀ r ∈ sortByTs (dedupF [] all_data),
      all_data.find? (fun x => x.ts = r.ts) = some r) ∧
    (∀ x ∈ all_data, ∃ r ∈ sortByTs (dedupF [] all_data), r.ts = x.ts) := by
  have hperm : List.Perm (sortByTs (dedupF [] all_data)) (dedupF [] all_data) :=
    List.perm_insertionSort _ _
  refine ⟨?_, ?_, ?_⟩
  · have hle : (sortByTs (dedupF [] all_data)).Pairwise (fun a b => a.ts ≤ b.ts) :=
      List.sorted_insertionSort _ _
    have hne : (sortByTs (dedupF [] all_data)).Pairwise (fun a b => a.ts ≠ b.ts) :=
      (hperm.pairwise_iff (fun h => Ne.symm h)).mpr (dedupF_pairwise_ne all_data [])
    exact (hle.and hne).imp (fun h => lt_of_le_of_ne h.1 h.2)
  · intro r hr
    exact (dedupF_first_seen all_data [] r (hperm.mem_iff.mp hr)).2
  · intro x hx
    rcases dedupF_cover all_data [] x hx with hs | ⟨r, hr, he⟩
    · simp at hs
    · exact ⟨r, hperm.mem_iff.mpr hr, he⟩

/-- Claim C7: failed (`none`) or empty chunks are skipped without
affecting the result; the fetch signals failure (returns `none`) exactly
when the combined deduplicated data is empty; and when some chunk
succeeded with data, the fetch succeeds and that chunk's timestamps all
appear in the output. -/
theorem fetch_failure_policy (chunks : List (Option (List DvolRow))) :
    (fetch_dvol_data chunks =
      fetch_dvol_data (chunks.filter (fun ch => !(ch.getD []).isEmpty))) ∧
    (fetch_dvol_data chunks = none ↔ combineChunks chunks = []) ∧
    (∀ rows, some rows ∈ chunks → rows ≠ [] →
      ∃ u, fetch_dvol_data chunks = some u ∧ u ≠ [] ∧
        ∀ x ∈ rows, ∃ r ∈ u, r.ts = x.ts) := by
  have hnil : ∀ l : List DvolRow, sortByTs l = [] ↔ l = [] := by
    intro l
    constructor
    · intro h
      have hp := List.perm_insertionSort (fun a b => a.ts ≤ b.ts) l
      rw [show sortByTs l = List.insertionSort (fun a b => a.ts ≤ b.ts) l from rfl]
        at h
      rw [h] at hp
      exact (hp.symm.eq_nil)
    · intro h
      rw [h]
      rfl
  refine ⟨?_, ?_, ?_⟩
  · have hfilter : ∀ cs : List (Option (List DvolRow)),
        combineChunks cs
          = combineChunks (cs.filter (fun ch => !(ch.getD []).isEmpty)) := by
      intro cs
      induction cs with
      | nil => rfl
      | cons ch cs ih =>
        cases ch with
        | none =>
          rw [combineChunks_cons]
          simp only [List.filter_cons, Option.getD_none, List.isEmpty_nil,
            Bool.not_true, Bool.false_eq_true, if_false]
          simpa using ih
        | some rows =>
          cases rows with
          | nil =>
            rw [combineChunks_cons]
            simp only [List.filter_cons, Option.getD_some, List.isEmpty_nil,
              Bool.not_true, Bool.false_eq_true, if_false]
            simpa using ih
          | cons a rs =>
            rw [combineChunks_cons]
            simp only [List.filter_cons, Option.getD_some, List.isEmpty_cons,
              Bool.not_false, if_true]
            rw [combineChunks_cons, ← ih]
            rfl
    simp only [fetch_dvol_data]
    rw [← hfilter chunks]
  · simp only [fetch_dvol_data]
    constructor
    · intro h
      by_cases hu : sortByTs (dedupF [] (combineChunks chunks)) = []
      · exact (dedupF_eq_nil _).mp ((hnil _).mp hu)
      · rw [if_neg hu] at h
        simp at h
    · intro h
      rw [h]
      have h2 : dedupF [] ([] : List DvolRow) = [] := rfl
      rw [h2]
      simp [sortByTs, List.insertionSort]
  · intro rows hmem hne
    have hx0 : combineChunks chunks ≠ [] := by
      obtain ⟨x, hx⟩ := List.exists_mem_of_ne_nil rows hne
      have hxc : x ∈ combineChunks chunks :=
        (mem_combineChunks chunks x).mpr ⟨rows, hmem, hx⟩
      intro hc
      rw [hc] at hxc
      simp at hxc
    have hu : sortByTs (dedupF [] (combineChunks chunks)) ≠ [] := by
      intro hc
      exact hx0 ((dedupF_eq_nil _).mp ((hnil _).mp hc))
    refine ⟨sortByTs (dedupF [] (combineChunks chunks)), ?_, hu, ?_⟩
    · simp only [fetch_dvol_data]
      rw [if_neg hu]
    · intro x hx
      have hxc : x ∈ combineChunks chunks :=
        (mem_combineChunks chunks x).mpr ⟨rows, hmem, hx⟩
      rcases dedupF_cover (combineChunks chunks) [] x hxc with hs | ⟨r, hr, he⟩
      · simp at hs
      · exact ⟨r, (List.perm_insertionSort _ _).mem_iff.mpr hr, he⟩

/-- Claim C3: classification of the latest volatility value is total and
deterministic — any value at most 40 is Low, any value at least 60 is
High, anything strictly between is Normal (so 40 is Low and 60 is High),
and the result is always one of the three localized-label/English-tag
pairs. -/
theorem classify_total (v : ℚ) :
    (v ≤ 40 → classify v = ("저변동성", "Low Volatility")) ∧
    (60 ≤ v → classify v = ("과변동성", "High Volatility")) ∧
    (40 < v → v < 60 → classify v = ("보통", "Normal")) ∧
    (classify v = ("저변동성", "Low Volatility") ∨
     classify v = ("보통", "Normal") ∨
     classify v = ("과변동성", "High Volatility")) := by
  unfold classify
  refine ⟨?_, ?_, ?_, ?_⟩
  · intro h
    have h60 : ¬ v ≥ 60 := by linarith
    rw [if_neg h60, if_pos h]
  · intro h
    rw [if_pos h]
  · intro h1 h2
    have h60 : ¬ v ≥ 60 := by linarith
    have h40 : ¬ v ≤ 40 := by linarith
    rw [if_neg h60, if_neg h40]
  · by_cases h60 : v ≥ 60
    · right; right; rw [if_pos h60]
    · by_cases h40 : v ≤ 40
      · left; rw [if_neg h60, if_pos h40]
      · right; left; rw [if_neg h60, if_neg h40]

/-- Claim C4: the persisted expected_daily_move equals the latest (last)
volatility value divided by 19.1 then rounded to 2 decimal places; in
particular a latest value of 55.0 yields 2.88. -/
theorem expected_daily_move_spec (dates : List String) (bp dv : List ℚ)
    (x : ℚ) (hv : dv.getLast? = some x) :
    (build_output dates bp dv).current_dvol = x ∧
    (build_output dates bp dv).expected_daily_move = pyRound2 (x / (191/10)) ∧
    (x = 55 → (build_output dates bp dv).expected_daily_move = 288/100) := by
  refine ⟨by simp [build_output, hv], by simp [build_output, hv], ?_⟩
  intro hx
  subst hx
  simp only [build_output, hv, Option.getD_some]
  norm_num [pyRound2, roundHalfEven]

/-- Claim C6: under a no-data condition — a fetcher signalling failure, a
fetcher returning zero points, or no common date between the two
sources — the run aborts and produces no output record. -/
theorem no_data_abort (dvolRes : Option (List DvolRow))
    (priceRes : Option (List PricePoint)) :
    (dvolRes = none → main_run dvolRes priceRes = none) ∧
    (priceRes = none → main_run dvolRes priceRes = none) ∧
    (dvolRes = some [] → main_run dvolRes priceRes = none) ∧
    (priceRes = some [] → main_run dvolRes priceRes = none) ∧
    (∀ dvol_data price_data dm pm,
      dvolRes = some dvol_data → priceRes = some price_data →
      dvol_by_date dvol_data = some dm → price_by_date price_data = some pm →
      commonDates dm pm = [] → main_run dvolRes priceRes = none) := by
  refine ⟨?_, ?_, ?_, ?_, ?_⟩
  · rintro rfl
    cases priceRes <;> rfl
  · rintro rfl
    cases dvolRes <;> rfl
  · rintro rfl
    cases priceRes with
    | none => rfl
    | some p => simp [main_run]
  · rintro rfl
    cases dvolRes with
    | none => rfl
    | some d => simp [main_run]
  · intro dvol_data price_data dm pm h1 h2 hd hp hc
    subst h1
    subst h2
    by_cases he : dvol_data = [] ∨ price_data = []
    · simp [main_run, he]
    · have hpd := process_data_eq dvol_data price_data dm pm hd hp
      rw [hc] at hpd
      simp only [List.map_nil] at hpd
      simp [main_run, he, hpd]

/-- Claim C9: the pipeline is deterministic in its data — two runs over
identical fetch results produce records that agree in every persisted
field (the wall-clock `last_updated` is outside the data model). -/
theorem run_deterministic (dvolRes : Option (List DvolRow))
    (priceRes : Option (List PricePoint)) (r1 r2 : SummaryRecord)
    (h1 : main_run dvolRes priceRes = some r1)
    (h2 : main_run dvolRes priceRes = some r2) :
    r1.dates = r2.dates ∧ r1.btc_prices = r2.btc_prices ∧ r1.dvol = r2.dvol ∧
    r1.current_price = r2.current_price ∧ r1.current_dvol = r2.current_dvol ∧
    r1.expected_daily_move = r2.expected_daily_move ∧
    r1.status = r2.status ∧ r1.status_en = r2.status_en := by
  have h := Option.some.inj (h1.symm.trans h2)
  subst h
  exact ⟨rfl, rfl, rfl, rfl, rfl, rfl, rfl, rfl⟩

/-- Claim C10 counterexample: an integer timestamp whose UTC day falls
beyond Python datetime's year 9999 (here 254000000000000 ms, year 10018)
makes `process_data` raise (modelled as `none`) instead of returning. -/
theorem process_data_not_total :
    process_data [⟨254000000000000, 0, 0, 0, 50⟩] [⟨1700000000, 60000⟩] = none := by
  rfl

/-- Claim C10 (amended): `process_data` is total on well-formed rows whose
timestamps all map to UTC days within Python datetime's representable
range (years 1..9999); it then returns, with the empty triple when the
date intersection is empty. -/
theorem process_data_total (dvol_data : List DvolRow)
    (price_data : List PricePoint)
    (h1 : ∀ it ∈ dvol_data, (dateKeyMs it.ts).isSome)
    (h2 : ∀ it ∈ price_data, (dateKeySec it.x).isSome) :
    ∃ r, process_data dvol_data price_data = some r ∧
      ((∀ d, ¬ ((∃ it ∈ dvol_data, dateKeyMs it.ts = some d) ∧
                (∃ it ∈ price_data, dateKeySec it.x = some d))) →
        r = ([], [], [])) := by
  obtain ⟨dm, hdm⟩ :=
    buildDictAux_total (fun it => dateKeyMs it.ts) (fun it => it.c) dvol_data [] h1
  obtain ⟨pm, hpm⟩ :=
    buildDictAux_total (fun it => dateKeySec it.x) (fun it => it.y) price_data [] h2
  have hd : dvol_by_date dvol_data = some dm := hdm
  have hp : price_by_date price_data = some pm := hpm
  have he := process_data_eq _ _ _ _ hd hp
  refine ⟨_, he, ?_⟩
  intro hnone
  have hc : commonDates dm pm = [] := by
    rw [List.eq_nil_iff_forall_not_mem]
    intro d hdmem
    rw [commonDates_mem] at hdmem
    refine hnone d ⟨?_, ?_⟩
    · rcases (buildDictAux_keys_mem _ _ dvol_data [] dm hdm d).mp hdmem.1 with h | h
      · simp [dictKeys] at h
      · exact h
    · rcases (buildDictAux_keys_mem _ _ price_data [] pm hpm d).mp hdmem.2 with h | h
      · simp [dictKeys] at h
      · exact h
  rw [hc]
  simp

/-! ## Concrete example run (the spec's worked scenario, with an
integral price) -/

/-- One volatility row and one price point falling on the same UTC day
align to a single-date series. -/
theorem process_data_example :
    process_data [⟨1700000000000, 0, 0, 0, 55⟩] [⟨1700000000, 60000⟩]
      = some (["2023-11-14"], [60000], [55]) := by
  have hd : dvol_by_date [⟨1700000000000, 0, 0, 0, 55⟩]
      = some [("2023-11-14", 55)] := by decide
  have hp : price_by_date [⟨1700000000, 60000⟩]
      = some [("2023-11-14", 60000)] := by decide
  have he := process_data_eq _ _ _ _ hd hp
  have hc : commonDates [("2023-11-14", 55)] [("2023-11-14", 60000)]
      = ["2023-11-14"] := by decide
  rw [hc] at he
  rw [he]
  norm_num [dictGet?, List.find?, pyRound2, roundHalfEven]

/-! ## Witnesses -/

/-- Witness for C1 at a concrete aligned input. -/
theorem process_data_dates_sorted_inter_witness :
    List.Pairwise (fun a b : String => a < b) ["2023-11-14"] :=
  (process_data_dates_sorted_inter [⟨1700000000000, 0, 0, 0, 55⟩]
    [⟨1700000000, 60000⟩] ["2023-11-14"] [60000] [55] process_data_example).1

/-- Witness for C5 at a concrete aligned input. -/
theorem process_data_lengths_witness :
    (["2023-11-14"] : List String).length = ([60000] : List ℚ).length ∧
    ([60000] : List ℚ).length = ([55] : List ℚ).length := by
  have h := process_data_lengths [⟨1700000000000, 0, 0, 0, 55⟩]
    [⟨1700000000, 60000⟩] ["2023-11-14"] [60000] [55] process_data_example
  exact ⟨h.1, h.2.1⟩

/-- Witness for C8: two same-day volatility points; the stored value is
the later one's close. -/
theorem byDate_last_write_wins_witness :
    dictGet? [("2023-11-14", 57)] ("2023-11-14")
      = (([⟨1700000000000, 0, 0, 0, 55⟩, ⟨1700000001000, 0, 0, 0, 57⟩] :
            List DvolRow).reverse.find?
          (fun it => dateKeyMs it.ts = some ("2023-11-14"))).map
            (fun it => it.c) := by
  have h := byDate_last_write_wins
    [⟨1700000000000, 0, 0, 0, 55⟩, ⟨1700000001000, 0, 0, 0, 57⟩]
    [⟨1700000000, 60000⟩] [("2023-11-14", 57)] [("2023-11-14", 60000)]
    (by decide) (by decide) ("2023-11-14")
  exact h.1

/-- Witness for C2: three rows, two sharing a timestamp, out of order. -/
theorem fetch_dedup_spec_witness :
    (sortByTs (dedupF [] [⟨2000, 0, 0, 0, 5⟩, ⟨1000, 0, 0, 0, 3⟩,
        ⟨1000, 0, 0, 0, 9⟩])).Pairwise (fun a b => a.ts < b.ts) ∧
    ([⟨2000, 0, 0, 0, 5⟩, ⟨1000, 0, 0, 0, 3⟩, ⟨1000, 0, 0, 0, 9⟩] :
        List DvolRow).find?
        (fun x => x.ts = (⟨1000, 0, 0, 0, 3⟩ : DvolRow).ts)
      = some ⟨1000, 0, 0, 0, 3⟩ ∧
    ∃ r ∈ sortByTs (dedupF [] [⟨2000, 0, 0, 0, 5⟩, ⟨1000, 0, 0, 0, 3⟩,
        ⟨1000, 0, 0, 0, 9⟩]), r.ts = (⟨1000, 0, 0, 0, 9⟩ : DvolRow).ts := by
  have h := fetch_dedup_spec
    [⟨2000, 0, 0, 0, 5⟩, ⟨1000, 0, 0, 0, 3⟩, ⟨1000, 0, 0, 0, 9⟩]
  exact ⟨h.1, h.2.1 ⟨1000, 0, 0, 0, 3⟩ (by decide),
    h.2.2 ⟨1000, 0, 0, 0, 9⟩ (by decide)⟩

/-- Witness for C7: one failed chunk, one chunk with data, one empty. -/
theorem fetch_failure_policy_witness :
    (fetch_dvol_data [none, some [⟨2000, 0, 0, 0, 5⟩], some []] = none ↔
      combineChunks [none, some [⟨2000, 0, 0, 0, 5⟩], some []] = []) ∧
    ∃ u, fetch_dvol_data [none, some [⟨2000, 0, 0, 0, 5⟩], some []] = some u ∧
      u ≠ [] ∧ ∀ x ∈ [(⟨2000, 0, 0, 0, 5⟩ : DvolRow)], ∃ r ∈ u, r.ts = x.ts := by
  have h := fetch_failure_policy [none, some [⟨2000, 0, 0, 0, 5⟩], some []]
  exact ⟨h.2.1, h.2.2 [⟨2000, 0, 0, 0, 5⟩] (by decide) (by decide)⟩

/-- Witness for C3 at the boundary and middle values. -/
theorem classify_total_witness :
    classify 40 = ("저변동성", "Low Volatility") ∧
    classify 60 = ("과변동성", "High Volatility") ∧
    classify 50 = ("보통", "Normal") :=
  ⟨(classify_total 40).1 (by norm_num),
   (classify_total 60).2.1 (by norm_num),
   (classify_total 50).2.2.1 (by norm_num) (by norm_num)⟩

/-- Witness for C4: latest volatility 55 gives 2.88. -/
theorem expected_daily_move_spec_witness :
    (build_output ["2023-11-14"] [60000] [55]).current_dvol = 55 ∧
    (build_output ["2023-11-14"] [60000] [55]).expected_daily_move
      = pyRound2 (55 / (191/10)) ∧
    (build_output ["2023-11-14"] [60000] [55]).expected_daily_move = 288/100 := by
  have h := expected_daily_move_spec ["2023-11-14"] [60000] [55] 55 rfl
  exact ⟨h.1, h.2.1, h.2.2 rfl⟩

/-- Witness for C6: a failed volatility fetch, and two sources with no
common date. -/
theorem no_data_abort_witness :
    main_run none (some [⟨1700000000, 60000⟩]) = none ∧
    main_run (some [⟨1700000000000, 0, 0, 0, 55⟩]) (some [⟨1800000000, 60000⟩])
      = none := by
  constructor
  · exact (no_data_abort none (some [⟨1700000000, 60000⟩])).1 rfl
  · exact (no_data_abort (some [⟨1700000000000, 0, 0, 0, 55⟩])
      (some [⟨1800000000, 60000⟩])).2.2.2.2
      [⟨1700000000000, 0, 0, 0, 55⟩] [⟨1800000000, 60000⟩]
      [("2023-11-14", 55)] [("2027-01-15", 60000)] rfl rfl
      (by decide) (by decide) (by decide)

/-- Witness for C9 at a concrete run. -/
theorem run_deterministic_witness :
    (build_output ["2023-11-14"] [60000] [55]).dates
        = (build_output ["2023-11-14"] [60000] [55]).dates ∧
    (build_output ["2023-11-14"] [60000] [55]).btc_prices
        = (build_output ["2023-11-14"] [60000] [55]).btc_prices ∧
    (build_output ["2023-11-14"] [60000] [55]).dvol
        = (build_output ["2023-11-14"] [60000] [55]).dvol ∧
    (build_output ["2023-11-14"] [60000] [55]).current_price
        = (build_output ["2023-11-14"] [60000] [55]).current_price ∧
    (build_output ["2023-11-14"] [60000] [55]).current_dvol
        = (build_output ["2023-11-14"] [60000] [55]).current_dvol ∧
    (build_output ["2023-11-14"] [60000] [55]).expected_daily_move
        = (build_output ["2023-11-14"] [60000] [55]).expected_daily_move ∧
    (build_output ["2023-11-14"] [60000] [55]).status
        = (build_output ["2023-11-14"] [60000] [55]).status ∧
    (build_output ["2023-11-14"] [60000] [55]).status_en
        = (build_output ["2023-11-14"] [60000] [55]).status_en := by
  have hm : main_run (some [⟨1700000000000, 0, 0, 0, 55⟩])
      (some [⟨1700000000, 60000⟩])
      = some (build_output ["2023-11-14"] [60000] [55]) := by
    simp [main_run, process_data_example]
  exact run_deterministic _ _ _ _ hm hm

/-- Witness for the amended C10 at an in-range input. -/
theorem process_data_total_witness :
    ∃ r, process_data [⟨1700000000000, 0, 0, 0, 55⟩] [⟨1700000000, 60000⟩]
        = some r ∧
      ((∀ d, ¬ ((∃ it ∈ [(⟨1700000000000, 0, 0, 0, 55⟩ : DvolRow)],
            dateKeyMs it.ts = some d) ∧
          (∃ it ∈ [(⟨1700000000, 60000⟩ : PricePoint)],
            dateKeySec it.x = some d))) → r = ([], [], [])) :=
  process_data_total _ _ (by decide) (by decide)
